import Mathlib

/-!
Verification development for the scheduler core of a P2P file-distribution
system.  Go sources are shallowly embedded as executable Lean definitions;
machine integers are modelled as `Nat`/`Int` with explicit reduction
modulo 2^32 where the Go code relies on 32-bit wrap-around.
-/

set_option maxRecDepth 10000

/- ===== Byte and string helpers ===== -/

/-- UTF-8 encoding of a single character, as the list of its bytes. -/
def utf8Char (c : Char) : List Nat :=
  let n := c.toNat
  if n < 0x80 then [n]
  else if n < 0x800 then
    [0xC0 ||| (n >>> 6), 0x80 ||| (n &&& 0x3F)]
  else if n < 0x10000 then
    [0xE0 ||| (n >>> 12), 0x80 ||| ((n >>> 6) &&& 0x3F), 0x80 ||| (n &&& 0x3F)]
  else
    [0xF0 ||| (n >>> 18), 0x80 ||| ((n >>> 12) &&& 0x3F),
     0x80 ||| ((n >>> 6) &&& 0x3F), 0x80 ||| (n &&& 0x3F)]

/-- UTF-8 encoding of a string, as in Go where a string is a byte sequence. -/
def utf8Bytes (s : String) : List Nat :=
  s.data.flatMap utf8Char

/- ===== SHA-256 (helper for the spec-modelled digestutils.Sha256) ===== -/

/-- Modulus of 32-bit machine arithmetic. -/
def m32 : Nat := 4294967296

/-- Right rotation of a 32-bit word. -/
def rotr32 (n x : Nat) : Nat := ((x >>> n) ||| (x <<< (32 - n))) % m32

/-- SHA-256 round constants. -/
def sha256K : List Nat :=
  [1116352408, 1899447441, 3049323471, 3921009573, 961987163, 1508970993,
   2453635748, 2870763221, 3624381080, 310598401, 607225278, 1426881987,
   1925078388, 2162078206, 2614888103, 3248222580, 3835390401, 4022224774,
   264347078, 604807628, 770255983, 1249150122, 1555081692, 1996064986,
   2554220882, 2821834349, 2952996808, 3210313671, 3336571891, 3584528711,
   113926993, 338241895, 666307205, 773529912, 1294757372, 1396182291,
   1695183700, 1986661051, 2177026350, 2456956037, 2730485921, 2820302411,
   3259730800, 3345764771, 3516065817, 3600352804, 4094571909, 275423344,
   430227734, 506948616, 659060556, 883997877, 958139571, 1322822218,
   1537002063, 1747873779, 1955562222, 2024104815, 2227730452, 2361852424,
   2428436474, 2756734187, 3204031479, 3329325298]

/-- SHA-256 initial hash state. -/
def sha256H0 : List Nat :=
  [1779033703, 3144134277, 1013904242, 2773480762,
   1359893119, 2600822924, 528734635, 1541459225]

/-- Big-endian 8-byte encoding of a number. -/
def be64 (n : Nat) : List Nat :=
  [(n >>> 56) % 256, (n >>> 48) % 256, (n >>> 40) % 256, (n >>> 32) % 256,
   (n >>> 24) % 256, (n >>> 16) % 256, (n >>> 8) % 256, n % 256]

/-- SHA-256 message padding over a byte list. -/
def sha256Pad (msg : List Nat) : List Nat :=
  let l := msg.length
  let zeros := (56 + 64 - ((l + 1) % 64)) % 64
  msg ++ [0x80] ++ List.replicate zeros 0 ++ be64 (8 * l)

/-- Big-endian grouping of bytes into 32-bit words. -/
def bytesToWords : List Nat → List Nat
  | a :: b :: c :: d :: rest =>
      ((a <<< 24) ||| (b <<< 16) ||| (c <<< 8) ||| d) :: bytesToWords rest
  | _ => []

/-- One extension step of the SHA-256 message schedule. -/
def sha256ExtendStep (cur : List Nat) : List Nat :=
  let g := fun (k : Nat) => cur.getD (cur.length - k) 0
  let s0 := (rotr32 7 (g 15)) ^^^ (rotr32 18 (g 15)) ^^^ ((g 15) >>> 3)
  let s1 := (rotr32 17 (g 2)) ^^^ (rotr32 19 (g 2)) ^^^ ((g 2) >>> 10)
  cur ++ [(g 16 + s0 + g 7 + s1) % m32]

/-- Iterated message-schedule extension. -/
def sha256Sched : Nat → List Nat → List Nat
  | 0, ws => ws
  | n + 1, ws => sha256ExtendStep (sha256Sched n ws)

/-- One SHA-256 compression round on the eight-word working state. -/
def sha256Round (st : List Nat) (kw : Nat × Nat) : List Nat :=
  match st with
  | [a, b, c, d, e, f, g, h] =>
      let s1 := (rotr32 6 e) ^^^ (rotr32 11 e) ^^^ (rotr32 25 e)
      let ch := (e &&& f) ^^^ ((m32 - 1 - e) &&& g)
      let t1 := (h + s1 + ch + kw.1 + kw.2) % m32
      let s0 := (rotr32 2 a) ^^^ (rotr32 13 a) ^^^ (rotr32 22 a)
      let mj := (a &&& b) ^^^ (a &&& c) ^^^ (b &&& c)
      let t2 := (s0 + mj) % m32
      [(t1 + t2) % m32, a, b, c, (d + t1) % m32, e, f, g]
  | other => other

/-- SHA-256 compression of one block given the schedule paired with constants. -/
def sha256Compress (hs : List Nat) (kws : List (Nat × Nat)) : List Nat :=
  let out := kws.foldl sha256Round hs
  (hs.zip out).map (fun p => (p.1 + p.2) % m32)

/-- Fuel-driven splitting of a byte list into 64-byte blocks. -/
def chunks64Aux : Nat → List Nat → List (List Nat)
  | 0, _ => []
  | _, [] => []
  | fuel + 1, l => l.take 64 :: chunks64Aux fuel (l.drop 64)

/-- Splitting a byte list into 64-byte blocks. -/
def chunks64 (l : List Nat) : List (List Nat) :=
  chunks64Aux l.length l

/-- SHA-256 digest of a byte list, as eight 32-bit words. -/
def sha256Words (msg : List Nat) : List Nat :=
  (chunks64 (sha256Pad msg)).foldl
    (fun hs block => sha256Compress hs (sha256K.zip (sha256Sched 48 (bytesToWords block))))
    sha256H0

/-- Hexadecimal digit characters. -/
def hexDigits : List Char :=
  "0123456789abcdef".data

/-- Lowercase hex rendering of one 32-bit word. -/
def wordHex (w : Nat) : List Char :=
  [hexDigits.getD ((w >>> 28) &&& 15) '0', hexDigits.getD ((w >>> 24) &&& 15) '0',
   hexDigits.getD ((w >>> 20) &&& 15) '0', hexDigits.getD ((w >>> 16) &&& 15) '0',
   hexDigits.getD ((w >>> 12) &&& 15) '0', hexDigits.getD ((w >>> 8) &&& 15) '0',
   hexDigits.getD ((w >>> 4) &&& 15) '0', hexDigits.getD (w &&& 15) '0']

/-- Modelled from the spec: `digestutils.Sha256` is not under src; §6 defines the
task id as `sha256_hex` of the source string, so it is modelled as the
lowercase hex SHA-256 digest of the UTF-8 bytes of the string. -/
def sha256HexStr (s : String) : String :=
  String.mk ((sha256Words (utf8Bytes s)).flatMap wordHex)

/- ===== Task-id generation (pkg/idgen GenerateTaskID and the §6 format) ===== -/

/-- Modelled from the spec: `urlutils.FilterURLParam` is not under src; the spec
says the source is the URL after stripping the query params listed in the
filter, so the model drops every query parameter whose name is in the list
and keeps the rest in order. -/
def filterURLParam (url : String) (filters : List String) : String :=
  match url.splitOn "?" with
  | [] => url
  | [_] => url
  | base :: rest =>
      let query := String.intercalate "?" rest
      let kept := (query.splitOn "&").filter
        (fun p => ¬ filters.contains ((p.splitOn "=").headD ""))
      if kept.isEmpty then base else base ++ "?" ++ String.intercalate "&" kept

/-- Modelled from the spec: `stringutils.SubString` is not under src; §6 takes
the last 10 characters of the source string (the whole string when it is
shorter). -/
def lastTenChars (s : String) : String :=
  String.mk (s.data.drop (s.data.length - 10))

/-- Request metadata carried by a registration, mirror of `base.UrlMeta` with
the two fields read by `GenerateTaskID`. -/
structure UrlMeta where
  md5 : String
  range : String
deriving DecidableEq, Repr

/-- Embedding of `idgen.GenerateTaskID` (pkg/rpc/examples/cdnsystem/client/main.go):
the task-id source starts from the (possibly filtered) URL, appends a pipe
and the md5 digest when present, else a pipe and the bizID when present,
then a pipe and the range when present; the id is the sha256 hex digest of
the last ten characters of the source prepended to the source. -/
def GenerateTaskID (url : String) (filter : String) (meta : Option UrlMeta) (bizID : String) : String :=
  let ts0 := if filter ≠ "" then filterURLParam url (filter.splitOn "&") else url
  let md5String := match meta with | some m => m.md5 | none => ""
  let rangeString := match meta with | some m => m.range | none => ""
  let ts1 :=
    if md5String ≠ "" then ts0 ++ "|" ++ md5String
    else if bizID ≠ "" then ts0 ++ "|" ++ bizID
    else ts0
  let ts2 := if rangeString ≠ "" then ts1 ++ "|" ++ rangeString else ts1
  sha256HexStr (lastTenChars ts2 ++ ts2)

/-- Task-id source exactly as the claim words it: the filtered URL, then a pipe
and (digest or biz-tag or the empty string), then a pipe and (range or the
empty string) — the two pipe separators are always present. -/
def claimTaskSource (url : String) (filter : String) (meta : Option UrlMeta) (bizID : String) : String :=
  let filtered := if filter ≠ "" then filterURLParam url (filter.splitOn "&") else url
  let md5String := match meta with | some m => m.md5 | none => ""
  let rangeString := match meta with | some m => m.range | none => ""
  let dig := if md5String ≠ "" then md5String else if bizID ≠ "" then bizID else ""
  filtered ++ "|" ++ dig ++ "|" ++ rangeString

/-- Task id computed over the claim format. -/
def claimTaskID (url : String) (filter : String) (meta : Option UrlMeta) (bizID : String) : String :=
  let src := claimTaskSource url filter meta bizID
  sha256HexStr (lastTenChars src ++ src)

/-- Task-id source as the code actually builds it: each pipe separator is only
appended together with a non-empty component (digest takes priority over the
biz tag). -/
def amendedTaskSource (url : String) (filter : String) (meta : Option UrlMeta) (bizID : String) : String :=
  let filtered := if filter ≠ "" then filterURLParam url (filter.splitOn "&") else url
  let md5String := match meta with | some m => m.md5 | none => ""
  let rangeString := match meta with | some m => m.range | none => ""
  let p1 :=
    if md5String ≠ "" then "|" ++ md5String
    else if bizID ≠ "" then "|" ++ bizID
    else ""
  let p2 := if rangeString ≠ "" then "|" ++ rangeString else ""
  filtered ++ p1 ++ p2

/-- Task id computed over the amended format. -/
def amendedTaskID (url : String) (filter : String) (meta : Option UrlMeta) (bizID : String) : String :=
  let src := amendedTaskSource url filter meta bizID
  sha256HexStr (lastTenChars src ++ src)

/- ===== Peer finite-state machine (scheduler/resource/peer.go, NewPeer) ===== -/

/-- Peer lifecycle states of the resource-era FSM. -/
inductive PeerState
  | pending
  | receivedTiny
  | receivedSmall
  | receivedNormal
  | running
  | backToSource
  | succeeded
  | failed
  | leave
deriving DecidableEq, Repr

/-- Peer lifecycle events of the resource-era FSM. -/
inductive PeerEvent
  | registerTiny
  | registerSmall
  | registerNormal
  | download
  | downloadFromBackToSource
  | downloadSucceeded
  | downloadFailed
  | leave
deriving DecidableEq, Repr

/-- Source states of each event, transcribed from the `fsm.Events` table in
`NewPeer`. -/
def peerEventSources : PeerEvent → List PeerState
  | .registerTiny => [.pending]
  | .registerSmall => [.pending]
  | .registerNormal => [.pending]
  | .download => [.receivedTiny, .receivedSmall, .receivedNormal]
  | .downloadFromBackToSource => [.receivedTiny, .receivedSmall, .receivedNormal, .running]
  | .downloadSucceeded =>
      [.receivedTiny, .receivedSmall, .receivedNormal, .running, .backToSource]
  | .downloadFailed =>
      [.pending, .receivedTiny, .receivedSmall, .receivedNormal,
       .running, .backToSource, .succeeded]
  | .leave =>
      [.pending, .receivedTiny, .receivedSmall, .receivedNormal,
       .running, .backToSource, .failed, .succeeded]

/-- Destination state of each event, transcribed from the same table. -/
def peerEventDst : PeerEvent → PeerState
  | .registerTiny => .receivedTiny
  | .registerSmall => .receivedSmall
  | .registerNormal => .receivedNormal
  | .download => .running
  | .downloadFromBackToSource => .backToSource
  | .downloadSucceeded => .succeeded
  | .downloadFailed => .failed
  | .leave => .leave

/-- One FSM step: the event fires only from its declared source states, as the
looplab fsm engine rejects the event otherwise. -/
def peerFSMStep (s : PeerState) (e : PeerEvent) : Option PeerState :=
  if s ∈ peerEventSources e then some (peerEventDst e) else none

/- ===== Task finite-state machine ===== -/

/-- Task lifecycle states. -/
inductive TaskState
  | pending
  | running
  | succeeded
  | failed
  | leave
deriving DecidableEq, Repr

/-- Task lifecycle events. -/
inductive TaskEvent
  | download
  | downloadSucceeded
  | downloadFailed
  | leave
deriving DecidableEq, Repr

/-- Modelled from the spec: the resource-era task FSM table is not under src;
§4.4 gives Download from Pending, Failed or Succeeded to Running,
DownloadSucceeded and DownloadFailed from Running, and Leave from any
non-terminal state. -/
def taskFSMStep (s : TaskState) (e : TaskEvent) : Option TaskState :=
  match e with
  | .download => if s = .pending ∨ s = .failed ∨ s = .succeeded then some .running else none
  | .downloadSucceeded => if s = .running then some .succeeded else none
  | .downloadFailed => if s = .running then some .failed else none
  | .leave => if s ≠ .leave then some .leave else none

/- ===== Old-architecture peer (scheduler/types/peer.go) ===== -/

/-- Status values of the old-architecture peer. -/
inductive TPeerStatus
  | waiting
  | running
  | zombie
  | fail
  | success
deriving DecidableEq, Repr

/-- Old-architecture peer record with the fields read or written by
`AddPieceInfo` and `Touch`. -/
structure TypesPeer where
  finishedNum : Int
  costHistory : List Int
  status : TPeerStatus
  leave : Bool
  lastAccessTime : Nat
deriving DecidableEq, Repr

/-- Old-architecture task record; `Touch` refreshes its last-access time. -/
structure TypesTask where
  lastAccessTime : Nat
deriving DecidableEq, Repr

/-- Embedding of `Peer.AddPieceInfo`: the finished counter and the cost history
change only when the reported count exceeds the stored one, and the history
is truncated to its most recent 20 entries. -/
def addPieceInfo (p : TypesPeer) (finishedCount : Int) (cost : Int) : TypesPeer :=
  if finishedCount > p.finishedNum then
    let ch := p.costHistory ++ [cost]
    let ch2 := if ch.length > 20 then ch.drop (ch.length - 20) else ch
    { p with finishedNum := finishedCount, costHistory := ch2 }
  else p

/-- Embedding of `Peer.Touch`: refresh the peer last-access time, revive a
zombie peer that is not marked as leaving, and touch the owning task.
Modelled from the spec: the types-era `Task.Touch` is not under src and is
modelled as refreshing the task last-access time. -/
def touchPeer (now : Nat) (p : TypesPeer) (t : TypesTask) : TypesPeer × TypesTask :=
  let p1 := { p with lastAccessTime := now }
  let p2 :=
    if p1.status = TPeerStatus.zombie ∧ p1.leave = false then
      { p1 with status := TPeerStatus.running }
    else p1
  (p2, { t with lastAccessTime := now })

/- ===== CRC-32 and the worker-group routing (schedule_worker) ===== -/

/-- One bit-level round of the reflected CRC-32 computation. -/
def crc32Round (crc : Nat) : Nat :=
  if crc &&& 1 = 1 then (crc >>> 1) ^^^ 0xEDB88320 else crc >>> 1

/-- Folding one byte into the CRC-32 state (eight bit rounds). -/
def crc32Byte (crc b : Nat) : Nat :=
  crc32Round (crc32Round (crc32Round (crc32Round
    (crc32Round (crc32Round (crc32Round (crc32Round (crc ^^^ b))))))))

/-- CRC-32 (IEEE polynomial) of the bytes of a string, as computed by the Go
`crc32.ChecksumIEEE`. -/
def crc32 (s : String) : Nat :=
  0xFFFFFFFF ^^^ (utf8Bytes s).foldl crc32Byte 0xFFFFFFFF

/-- Piece-result message fields used by the worker-group routing: the task id
it belongs to and the id of the reporting source peer. -/
structure PieceResultMsg where
  taskId : String
  srcPid : String
deriving DecidableEq, Repr

/-- Embedding of `WorkerGroup.ReceiveJob`: a job is routed to worker
`crc32(taskId) mod workerNum`. -/
def receiveJobWorker (workerNum : Nat) (taskId : String) : Nat :=
  crc32 taskId % workerNum

/-- Embedding of `WorkerGroup.ReceiveUpdatePieceResult`: a piece result is
routed to worker `crc32(srcPid) mod workerNum` — the source peer id, not the
task id. -/
def receiveUpdatePieceResultWorker (workerNum : Nat) (pr : PieceResultMsg) : Nat :=
  crc32 pr.srcPid % workerNum

/-- Supervisor-era event-loop events with the identifiers their `hashKey`
methods read (events.go of package core). -/
inductive CoreEvent
  | reScheduleParent (taskId peerId : String)
  | startReportPieceResult (taskId peerId : String)
  | pieceDownloadSuccess (taskId peerId : String)
  | pieceDownloadFail (taskId peerId : String)
  | taskSeedFail (taskId : String)
  | peerDownloadSuccess (taskId peerId : String)
  | peerDownloadFail (taskId peerId : String)
  | peerLeave (taskId peerId : String)
deriving DecidableEq, Repr

/-- Task id referenced by a supervisor-era event. -/
def CoreEvent.taskId : CoreEvent → String
  | .reScheduleParent t _ => t
  | .startReportPieceResult t _ => t
  | .pieceDownloadSuccess t _ => t
  | .pieceDownloadFail t _ => t
  | .taskSeedFail t => t
  | .peerDownloadSuccess t _ => t
  | .peerDownloadFail t _ => t
  | .peerLeave t _ => t

/-- Embedding of the `hashKey` methods of the supervisor-era events: every one
returns the task id of the peer or task it references. -/
def CoreEvent.hashKey : CoreEvent → String
  | .reScheduleParent t _ => t
  | .startReportPieceResult t _ => t
  | .pieceDownloadSuccess t _ => t
  | .pieceDownloadFail t _ => t
  | .taskSeedFail t => t
  | .peerDownloadSuccess t _ => t
  | .peerDownloadFail t _ => t
  | .peerLeave t _ => t

/-- Routing discipline asserted by the claim: piece results belonging to the
same task are always handled by the same worker queue. -/
def perTaskSerialRouting : Prop :=
  ∀ workerNum : Nat, 0 < workerNum →
    ∀ pr1 pr2 : PieceResultMsg, pr1.taskId = pr2.taskId →
      receiveUpdatePieceResultWorker workerNum pr1 =
        receiveUpdatePieceResultWorker workerNum pr2

/- ===== Peer garbage collection (supervisor-era manager.cleanupPeers) ===== -/

/-- Peer record with the fields the GC sweep reads: last access, status, the
leave flag, stream connectivity, and whether its host is a seed (CDN)
host. -/
structure GCPeer where
  id : String
  lastAccessTime : Nat
  status : TPeerStatus
  leave : Bool
  connected : Bool
  hostCDN : Bool
deriving DecidableEq, Repr

/-- GC clock configuration: idle-to-zombie and idle-to-remove. -/
structure GCConfig where
  peerTTI : Nat
  peerTTL : Nat
deriving DecidableEq, Repr

/-- Embedding of `Peer.IsDone`: the peer finished, successfully or not. -/
def gcIsDone (p : GCPeer) : Bool :=
  p.status = TPeerStatus.success ∨ p.status = TPeerStatus.fail

/-- Zombie-marking phase of one sweep iteration: a peer idle beyond the TTI
that is not done and is not on a CDN host is marked zombie (and leave, when
no stream is connected). -/
def gcMark (cfg : GCConfig) (now : Nat) (p : GCPeer) : GCPeer :=
  let elapse := now - p.lastAccessTime
  if elapse > cfg.peerTTI ∧ ¬ gcIsDone p ∧ ¬ p.hostCDN then
    let p1 := if ¬ p.connected then { p with leave := true } else p
    { p1 with status := TPeerStatus.zombie }
  else p

/-- Removal condition of one sweep iteration, checked after marking: the peer
left, failed, or has been idle beyond the TTL. -/
def gcShouldDelete (cfg : GCConfig) (now : Nat) (p : GCPeer) : Bool :=
  p.leave ∨ p.status = TPeerStatus.fail ∨ now - p.lastAccessTime > cfg.peerTTL

/-- One GC sweep over the peer map: each peer is marked and then removed when
the removal condition holds.  The cascading host and task cleanup done by
`manager.Delete` concerns other registries and is outside this model. -/
def cleanupPeers (cfg : GCConfig) (now : Nat) (peers : List GCPeer) : List GCPeer :=
  (peers.map (gcMark cfg now)).filter (fun p => ¬ gcShouldDelete cfg now p)

/-- CDN-hosted peer fixture: running, not leaving, connected, idle since 0. -/
def seedPeerCex : GCPeer :=
  { id := "cdn-peer", lastAccessTime := 0, status := TPeerStatus.running,
    leave := false, connected := true, hostCDN := true }

/- ===== Supervisor-era piece-success event (events.go, package core) ===== -/

/-- Status values of the supervisor-era task. -/
inductive SupTaskStatus
  | waiting
  | running
  | seeding
  | success
  | fail
deriving DecidableEq, Repr

/-- Supervisor-era peer record with the fields the piece-success handler
touches. -/
structure SupPeerRec where
  id : String
  parent : Option String
  leave : Bool
  status : TPeerStatus
  finishedNum : Int
  costHistory : List Int
  lastAccessTime : Nat
deriving DecidableEq, Repr

/-- Supervisor-era task record with the fields the piece-success handler
touches. -/
structure SupTaskRec where
  id : String
  status : SupTaskStatus
  backSourcePeers : List String
  pieceCount : Nat
  canSchedule : Bool
  lastAccessTime : Nat
deriving DecidableEq, Repr

/-- Graph state seen by the supervisor-era event handlers: one task and its
peers. -/
structure SupState where
  task : SupTaskRec
  peers : List SupPeerRec
deriving DecidableEq, Repr

/-- Runtime faults of the Go code observable in the embedding. -/
inductive GoPanicKind
  | nilPointerDereference
deriving DecidableEq, Repr

/-- Lookup in the supervisor peer registry. -/
def findSupPeer (l : List SupPeerRec) (pid : String) : Option SupPeerRec :=
  l.find? (fun p => p.id == pid)

/-- Pointwise update of the peer with the given id. -/
def updateSupPeer (s : SupState) (pid : String) (f : SupPeerRec → SupPeerRec) : SupState :=
  { s with peers := s.peers.map (fun p => if p.id == pid then f p else p) }

/-- Modelled from the spec: `supervisor.Peer.UpdateProgress` is not under src;
§4.7 says the handler updates the peer bitset and cost ring, and the in-src
types-era analog `AddPieceInfo` is followed: the counter and history change
only when the reported count is strictly greater. -/
def supUpdateProgress (finishedCount cost : Int) (p : SupPeerRec) : SupPeerRec :=
  if finishedCount > p.finishedNum then
    let ch := p.costHistory ++ [cost]
    let ch2 := if ch.length > 20 then ch.drop (ch.length - 20) else ch
    { p with finishedNum := finishedCount, costHistory := ch2 }
  else p

/-- Supervisor-era `ReplaceParent`, recorded as the parent edge of the child. -/
def supReplaceParent (s : SupState) (pid : String) (par : Option String) : SupState :=
  updateSupPeer s pid (fun p => { p with parent := par })

/-- Supervisor-era `Touch`, following the in-src types-era `Touch`: refresh the
peer and task last-access times and revive a non-leaving zombie. -/
def supTouch (now : Nat) (s : SupState) (pid : String) : SupState :=
  let s1 := updateSupPeer s pid (fun p =>
    let p1 := { p with lastAccessTime := now }
    if p1.status = TPeerStatus.zombie ∧ p1.leave = false then
      { p1 with status := TPeerStatus.running }
    else p1)
  { s1 with task := { s1.task with lastAccessTime := now } }

/-- Embedding of `peerDownloadPieceSuccessEvent.apply`: progress is recorded;
a back-source peer feeds the piece into the task; otherwise the reported
source peer is looked up, and on success the parent edge is swapped when the
source differs from both the child and its current parent; when the lookup
fails, the code still reads `parentPeer.IsLeave()` from the nil result,
which is a nil-pointer dereference. -/
def applyPieceDownloadSuccess (now : Nat) (s : SupState) (peerId dstPid : String)
    (finishedCount cost : Int) : Except GoPanicKind SupState :=
  match findSupPeer s.peers peerId with
  | none => .ok s
  | some _ =>
    let s1 := updateSupPeer s peerId (supUpdateProgress finishedCount cost)
    if s1.task.backSourcePeers.contains peerId then
      let s2 := { s1 with task := { s1.task with pieceCount := s1.task.pieceCount + 1 } }
      let s3 :=
        if ¬ s2.task.canSchedule then
          { s2 with task := { s2.task with status := SupTaskStatus.seeding } }
        else s2
      .ok s3
    else
      match findSupPeer s1.peers dstPid with
      | some _ =>
          let oldParent :=
            match findSupPeer s1.peers peerId with
            | some q => q.parent
            | none => none
          let s2 :=
            if dstPid ≠ peerId ∧ (oldParent = none ∨ oldParent ≠ some dstPid) then
              supReplaceParent s1 peerId (some dstPid)
            else s1
          .ok (supTouch now s2 dstPid)
      | none => .error GoPanicKind.nilPointerDereference

/-- Fixture for the nil-dereference path: one registered peer `p` that is not
a back-source peer, and a piece result naming the absent source `q`. -/
def c6State : SupState :=
  { task := { id := "t", status := SupTaskStatus.running, backSourcePeers := [],
              pieceCount := 0, canSchedule := true, lastAccessTime := 0 },
    peers := [{ id := "p", parent := none, leave := false, status := TPeerStatus.running,
                finishedNum := 0, costHistory := [], lastAccessTime := 0 }] }

/- ===== Scheduler model (scheduler/scheduler.go with scheduler/types/peer.go
graph walkers) ===== -/

/-- Host record: seed (CDN) marker and the upload-slot limit. -/
structure SHostRec where
  id : String
  cdn : Bool
  uploadLoadLimit : Int
deriving DecidableEq, Repr

/-- Peer record of the scheduler model. -/
structure SPeerRec where
  id : String
  state : PeerState
  parent : Option String
  hostId : String
  hasStream : Bool
  finishedNum : Int
deriving DecidableEq, Repr

/-- Task record of the scheduler model.  Modelled from the spec where the
resource-era Task is not under src: `can_back_to_source` is true iff the
back-to-source peer count is below the configured limit (§4.2), and
`LoadCDNPeer` yields the stored latest seed peer id. -/
structure STaskRec where
  id : String
  state : TaskState
  totalPieceCount : Int
  backToSourcePeerCount : Int
  backToSourceLimit : Int
  cdnPeerId : Option String
deriving DecidableEq, Repr

/-- Whole resource graph of one task: the task, its peers in the enumeration
order of the peer set, and the hosts. -/
structure Graph where
  task : STaskRec
  peers : List SPeerRec
  hosts : List SHostRec
deriving DecidableEq, Repr

/-- Scheduler configuration fields read by `ScheduleParent`, plus the dynconfig
override for the filter bound. -/
structure SchedConfig where
  retryBackSourceLimit : Nat
  retryLimit : Nat
  dynFilterParentCount : Option Int
deriving DecidableEq, Repr

/-- Go constant: default number of available parents after filtering. -/
def defaultFilterParentCount : Nat := 5

/-- Go constant: default tree depth limit. -/
def defaultDepthLimit : Nat := 10

/-- Effective filter bound: the dynconfig value when positive, the default
otherwise. -/
def effFilterParentCount (cfg : SchedConfig) : Nat :=
  match cfg.dynFilterParentCount with
  | some k => if k > 0 then k.toNat else defaultFilterParentCount
  | none => defaultFilterParentCount

/-- Modelled from the spec: the evaluator is a pluggable capability (§9) with a
scoring function and the cost-threshold part of `is_bad_node` (§4.6). -/
structure Evaluator where
  score : SPeerRec → SPeerRec → Int → Int
  costExceeds : SPeerRec → Bool

/-- Modelled from the spec: `is_bad_node(peer)` is true when the peer is in
Failed or Leave, or when its observed piece-download cost exceeds a
threshold (§4.6). -/
def isBadNode (ev : Evaluator) (p : SPeerRec) : Bool :=
  p.state == PeerState.failed || p.state == PeerState.leave || ev.costExceeds p

/-- Lookup of a peer record by id. -/
def findPeer (g : Graph) (pid : String) : Option SPeerRec :=
  g.peers.find? (fun p => p.id == pid)

/-- Lookup of a host record by id. -/
def findHost (g : Graph) (hid : String) : Option SHostRec :=
  g.hosts.find? (fun h => h.id == hid)

/-- Whether the host of a peer is a seed (CDN) host. -/
def peerHostCDN (g : Graph) (p : SPeerRec) : Bool :=
  match findHost g p.hostId with
  | some h => h.cdn
  | none => false

/-- Fuel-driven transcription of `Peer.GetDepth`: walk up the parent chain
counting nodes, stopping at a parentless node or at a CDN host. -/
def depthAux (g : Graph) : Nat → SPeerRec → Nat
  | 0, _ => 0
  | fuel + 1, node =>
    match node.parent with
    | none => 1
    | some pid =>
        if peerHostCDN g node then 1
        else
          match findPeer g pid with
          | some par => 1 + depthAux g fuel par
          | none => 1

/-- Depth of a peer record, with fuel covering every peer of the graph. -/
def depthOf (g : Graph) (p : SPeerRec) : Nat :=
  depthAux g (g.peers.length + 1) p

/-- Depth of the peer with the given id. -/
def depth (g : Graph) (pid : String) : Nat :=
  match findPeer g pid with
  | some p => depthOf g p
  | none => 0

/-- Fuel-driven transcription of `Peer.IsAncestor`: walk up from the node and
report whether the target id is met strictly before a root or CDN stop. -/
def isAncestorWalkAux (g : Graph) : Nat → SPeerRec → String → Bool
  | 0, _, _ => false
  | fuel + 1, node, target =>
    match node.parent with
    | none => false
    | some pid =>
        if peerHostCDN g node then false
        else if node.id == target then true
        else
          match findPeer g pid with
          | some par => isAncestorWalkAux g fuel par target
          | none => false

/-- Walk of `IsAncestor` from a peer record with full fuel. -/
def isAncestorFrom (g : Graph) (p : SPeerRec) (target : String) : Bool :=
  isAncestorWalkAux g (g.peers.length + 1) p target

/-- Whether the upward walk from a node passes through the target id, the
terminal node included (unlike the `IsAncestor` walk, which never matches a
root). -/
def visitsUpAux (g : Graph) : Nat → SPeerRec → String → Bool
  | 0, _, _ => false
  | fuel + 1, node, target =>
    node.id == target ||
      match node.parent with
      | none => false
      | some pid =>
          if peerHostCDN g node then false
          else
            match findPeer g pid with
            | some par => visitsUpAux g fuel par target
            | none => false

/-- Upward-walk visit with full fuel. -/
def visitsUp (g : Graph) (p : SPeerRec) (target : String) : Bool :=
  visitsUpAux g (g.peers.length + 1) p target

/-- Whether the parent edge of a peer lands on the given host; the per-host
upload load is the number of such child edges, matching the
increment/decrement discipline of associate/disassociate-child. -/
def parentOnHost (g : Graph) (hid : String) (c : SPeerRec) : Bool :=
  match c.parent with
  | some q =>
      match findPeer g q with
      | some par => par.hostId == hid
      | none => false
  | none => false

/-- Current upload load of a host, derived from the child edges. -/
def hostUploadLoad (g : Graph) (hid : String) : Nat :=
  (g.peers.filter (parentOnHost g hid)).length

/-- Embedding of `Host.FreeUploadLoad`: limit minus current load. -/
def freeUploadLoad (g : Graph) (hid : String) : Int :=
  (match findHost g hid with
   | some h => h.uploadLoadLimit
   | none => 0) - (hostUploadLoad g hid : Int)

/-- Replace the parent edge of the peer with the given id; the spec makes the
replacement an atomic remove-then-add (§3 TaskDAG invariant 2), so a single
field update models it. -/
def setPeerParent (g : Graph) (pid : String) (par : Option String) : Graph :=
  { g with peers := g.peers.map (fun p => if p.id == pid then { p with parent := par } else p) }

/-- Set the FSM state of the peer with the given id. -/
def setPeerState (g : Graph) (pid : String) (st : PeerState) : Graph :=
  { g with peers := g.peers.map (fun p => if p.id == pid then { p with state := st } else p) }

/-- Set the task FSM state. -/
def setTaskState (g : Graph) (ts : TaskState) : Graph :=
  { g with task := { g.task with state := ts } }

/-- Modelled from the spec: `can_back_to_source()` is true iff the
back-to-source peer count is below the configured limit (§4.2). -/
def canBackToSource (t : STaskRec) : Bool :=
  t.backToSourcePeerCount < t.backToSourceLimit

/-- Embedding of the `LoadCDNPeer` guard of `ScheduleParent`: the latest seed
peer exists and its FSM is in Failed. -/
def cdnPeerFailed (g : Graph) : Bool :=
  match g.task.cdnPeerId with
  | some cid =>
      match findPeer g cid with
      | some c => c.state == PeerState.failed
      | none => false
  | none => false

/-- Candidate-rejection loop of `filterParents`, transcribed check by check:
the enumeration stops once the bound is reached, and a candidate is skipped
when it is blocklisted, is the child itself, is a bad node, exceeds the
depth limit, is a descendant or an ancestor of the child, or its host has
no free upload slot. -/
def filterParentsLoop (ev : Evaluator) (g : Graph) (child : SPeerRec)
    (blocklist : List String) (limit : Nat) :
    List SPeerRec → List SPeerRec → List SPeerRec
  | [], acc => acc
  | cand :: rest, acc =>
    if acc.length ≥ limit then acc
    else if blocklist.contains cand.id then
      filterParentsLoop ev g child blocklist limit rest acc
    else if cand.id == child.id then
      filterParentsLoop ev g child blocklist limit rest acc
    else if isBadNode ev cand then
      filterParentsLoop ev g child blocklist limit rest acc
    else if depthOf g cand > defaultDepthLimit then
      filterParentsLoop ev g child blocklist limit rest acc
    else if isAncestorFrom g cand child.id then
      filterParentsLoop ev g child blocklist limit rest acc
    else if isAncestorFrom g child cand.id then
      filterParentsLoop ev g child blocklist limit rest acc
    else if freeUploadLoad g cand.hostId ≤ 0 then
      filterParentsLoop ev g child blocklist limit rest acc
    else
      filterParentsLoop ev g child blocklist limit rest (acc ++ [cand])

/-- Embedding of `filterParents`: run the rejection loop over the task peer
set with the effective bound. -/
def filterParents (cfg : SchedConfig) (ev : Evaluator) (g : Graph) (child : SPeerRec)
    (blocklist : List String) : List SPeerRec :=
  filterParentsLoop ev g child blocklist (effFilterParentCount cfg) g.peers []

/-- Candidate eligibility as one predicate: the conjunction of the loop checks. -/
def eligibleParent (ev : Evaluator) (g : Graph) (child : SPeerRec)
    (blocklist : List String) (cand : SPeerRec) : Bool :=
  !(blocklist.contains cand.id) && !(cand.id == child.id) && !(isBadNode ev cand) &&
    !(decide (depthOf g cand > defaultDepthLimit)) && !(isAncestorFrom g cand child.id) &&
    !(isAncestorFrom g child cand.id) && decide (freeUploadLoad g cand.hostId > 0)

/-- Descending-score ordering used to sort candidates for a given child. -/
def scoreGe (ev : Evaluator) (child : SPeerRec) (tc : Int) (a b : SPeerRec) : Prop :=
  ev.score b child tc ≤ ev.score a child tc

instance scoreGeDecidable (ev : Evaluator) (child : SPeerRec) (tc : Int) :
    DecidableRel (scoreGe ev child tc) :=
  fun a b => Int.decLe (ev.score b child tc) (ev.score a child tc)

/-- Codes carried by a peer packet. -/
inductive PacketCode
  | success
  | schedNeedBackSource
  | schedTaskStatusError
deriving DecidableEq, Repr

/-- Peer packet: the code, the main parent and the ordered standby peers (ids;
the host address fields of the wire packet carry no scheduling content). -/
structure Packet where
  code : PacketCode
  mainPeer : Option String
  stealPeers : List String
deriving DecidableEq, Repr

/-- Result of one `NotifyAndFindParent` attempt: the updated graph, the packets
pushed to the peer stream, the returned candidate ids and the success flag. -/
structure NotifyResult where
  g : Graph
  packets : List Packet
  parents : List String
  ok : Bool
deriving DecidableEq, Repr

/-- Candidates of one attempt, sorted by descending evaluator score. -/
def sortedParents (cfg : SchedConfig) (ev : Evaluator) (g : Graph) (peer : SPeerRec)
    (bl : List String) : List SPeerRec :=
  List.insertionSort (scoreGe ev peer g.task.totalPieceCount) (filterParents cfg ev g peer bl)

/-- Embedding of the body of `NotifyAndFindParent` once the peer record is in
hand. -/
def notifyBody (cfg : SchedConfig) (ev : Evaluator) (g : Graph) (pid : String)
    (bl : List String) (peer : SPeerRec) : NotifyResult :=
  if peer.state ≠ PeerState.running then ⟨g, [], [], false⟩
  else if (filterParents cfg ev g peer bl).isEmpty then ⟨g, [], [], false⟩
  else if peer.hasStream then
    match sortedParents cfg ev g peer bl with
    | [] => ⟨g, [], [], false⟩
    | best :: rest =>
        ⟨setPeerParent g pid (some best.id),
         [Packet.mk PacketCode.success (some best.id) (rest.map (fun r => r.id))],
         (best :: rest).map (fun r => r.id), true⟩
  else ⟨g, [], [], false⟩

/-- Embedding of `NotifyAndFindParent`: reject a peer that is not Running,
filter and sort the candidates by descending evaluator score, push a
success packet over the stream and replace the parent with the top
candidate. -/
def notifyAndFindParent (cfg : SchedConfig) (ev : Evaluator) (g : Graph) (pid : String)
    (bl : List String) : NotifyResult :=
  match findPeer g pid with
  | none => ⟨g, [], [], false⟩
  | some peer => notifyBody cfg ev g pid bl peer

/-- Fuel-driven transcription of the `ScheduleParent` retry loop: per
iteration, first the back-to-source branch (counter at the back-to-source
limit, or failed seed peer, and the task may still go back to source), then
the retry-exhaustion branch, then one `NotifyAndFindParent` attempt whose
failure increments the counter. -/
def scheduleParentAux (cfg : SchedConfig) (ev : Evaluator) (bl : List String) (pid : String) :
    Nat → Nat → Graph → Graph × List Packet
  | 0, _, g => (g, [])
  | fuel + 1, n, g =>
    if (decide (n ≥ cfg.retryBackSourceLimit) || cdnPeerFailed g) && canBackToSource g.task then
      match findPeer g pid with
      | none => (g, [])
      | some peer =>
        if peer.hasStream then
          match peerFSMStep peer.state PeerEvent.downloadFromBackToSource with
          | none => (g, [Packet.mk PacketCode.schedNeedBackSource none []])
          | some st =>
            if (setPeerState g pid st).task.state = TaskState.failed then
              match taskFSMStep (setPeerState g pid st).task.state TaskEvent.download with
              | none =>
                  (setPeerState g pid st, [Packet.mk PacketCode.schedNeedBackSource none []])
              | some ts =>
                  (setPeerParent (setTaskState (setPeerState g pid st) ts) pid none,
                   [Packet.mk PacketCode.schedNeedBackSource none []])
            else
              (setPeerParent (setPeerState g pid st) pid none,
               [Packet.mk PacketCode.schedNeedBackSource none []])
        else (g, [])
    else if n ≥ cfg.retryLimit then
      match findPeer g pid with
      | none => (g, [])
      | some peer =>
        if peer.hasStream then (g, [Packet.mk PacketCode.schedTaskStatusError none []])
        else (g, [])
    else
      match notifyAndFindParent cfg ev g pid bl with
      | ⟨g2, pkts2, _, true⟩ => (g2, pkts2)
      | ⟨g2, _, _, false⟩ => scheduleParentAux cfg ev bl pid fuel (n + 1) g2

/-- Embedding of `ScheduleParent`: the retry loop started at counter zero with
enough fuel for every possible iteration. -/
def scheduleParent (cfg : SchedConfig) (ev : Evaluator) (g : Graph) (pid : String)
    (bl : List String) : Graph × List Packet :=
  scheduleParentAux cfg ev bl pid (cfg.retryLimit + 1) 0 g

/-- Graph outcome of a successful back-to-source fallback: the peer moves to
BackToSource, a Failed task is reset to Running, and the parent edge of the
peer is deleted. -/
def backToSourceOutcome (g : Graph) (pid : String) : Graph :=
  let g1 := setPeerState g pid PeerState.backToSource
  let g2 := if g1.task.state = TaskState.failed then setTaskState g1 TaskState.running else g1
  setPeerParent g2 pid none

/- ===== Concrete fixtures ===== -/

/-- Neutral evaluator: constant score, no cost threshold exceeded. -/
def evW : Evaluator := { score := fun _ _ _ => 0, costExceeds := fun _ => false }

/-- Default scheduler configuration: back-to-source after 5 attempts, give up
after 10, no dynconfig override of the filter bound. -/
def cfgD : SchedConfig :=
  { retryBackSourceLimit := 5, retryLimit := 10, dynFilterParentCount := none }

/-- Retry-exhaustion scenario configuration (spec §8 scenario 5 scaled):
back-to-source after 2 attempts, give up after 3. -/
def cfgC2 : SchedConfig :=
  { retryBackSourceLimit := 2, retryLimit := 3, dynFilterParentCount := none }

/-- Graph with a single running streaming peer and back-to-source disabled. -/
def gC2 : Graph :=
  { task := { id := "t", state := TaskState.running, totalPieceCount := 0,
              backToSourcePeerCount := 0, backToSourceLimit := 0, cdnPeerId := none },
    peers := [{ id := "p", state := PeerState.running, parent := none,
                hostId := "h", hasStream := true, finishedNum := 0 }],
    hosts := [{ id := "h", cdn := false, uploadLoadLimit := 10 }] }

/-- Child record of the six-candidate graph. -/
def cSix : SPeerRec :=
  { id := "c", state := PeerState.running, parent := none,
    hostId := "hA", hasStream := true, finishedNum := 0 }

/-- Graph with six eligible root candidates and the requesting child. -/
def gSix : Graph :=
  { task := { id := "t", state := TaskState.running, totalPieceCount := 0,
              backToSourcePeerCount := 0, backToSourceLimit := 1, cdnPeerId := none },
    peers :=
      [{ id := "a1", state := PeerState.running, parent := none,
         hostId := "hA", hasStream := false, finishedNum := 0 },
       { id := "a2", state := PeerState.running, parent := none,
         hostId := "hA", hasStream := false, finishedNum := 0 },
       { id := "a3", state := PeerState.running, parent := none,
         hostId := "hA", hasStream := false, finishedNum := 0 },
       { id := "a4", state := PeerState.running, parent := none,
         hostId := "hA", hasStream := false, finishedNum := 0 },
       { id := "a5", state := PeerState.running, parent := none,
         hostId := "hA", hasStream := false, finishedNum := 0 },
       { id := "a6", state := PeerState.running, parent := none,
         hostId := "hA", hasStream := false, finishedNum := 0 },
       cSix],
    hosts := [{ id := "hA", cdn := false, uploadLoadLimit := 10 }] }

/-- Pending peer record used for the not-running rejection. -/
def cIdle : SPeerRec :=
  { id := "c", state := PeerState.pending, parent := none,
    hostId := "hA", hasStream := true, finishedNum := 0 }

/-- Graph whose requesting peer has not reached Running. -/
def gIdle : Graph :=
  { task := { id := "t", state := TaskState.running, totalPieceCount := 0,
              backToSourcePeerCount := 0, backToSourceLimit := 1, cdnPeerId := none },
    peers := [cIdle],
    hosts := [{ id := "hA", cdn := false, uploadLoadLimit := 10 }] }

/-- Chain peer of the depth fixture. -/
def chainPeer (pid : String) (par : Option String) (hid : String) : SPeerRec :=
  { id := pid, state := PeerState.running, parent := par,
    hostId := hid, hasStream := false, finishedNum := 0 }

/-- Child record of the depth fixture. -/
def cChain : SPeerRec :=
  { id := "c", state := PeerState.running, parent := none,
    hostId := "hc", hasStream := true, finishedNum := 0 }

/-- Host of the depth fixture: one upload slot each, no seed hosts. -/
def chainHost (hid : String) : SHostRec := { id := hid, cdn := false, uploadLoadLimit := 1 }

/-- Ten-peer parent chain q1 ← … ← q10 plus the child c: every qi except q10
already uploads to one child, so q10 — whose depth is exactly the limit
10 — is the only eligible candidate. -/
def gChain : Graph :=
  { task := { id := "t", state := TaskState.running, totalPieceCount := 0,
              backToSourcePeerCount := 0, backToSourceLimit := 1, cdnPeerId := none },
    peers :=
      [chainPeer "q1" none "h1", chainPeer "q2" (some "q1") "h2",
       chainPeer "q3" (some "q2") "h3", chainPeer "q4" (some "q3") "h4",
       chainPeer "q5" (some "q4") "h5", chainPeer "q6" (some "q5") "h6",
       chainPeer "q7" (some "q6") "h7", chainPeer "q8" (some "q7") "h8",
       chainPeer "q9" (some "q8") "h9", chainPeer "q10" (some "q9") "h10",
       cChain],
    hosts :=
      [chainHost "h1", chainHost "h2", chainHost "h3", chainHost "h4", chainHost "h5",
       chainHost "h6", chainHost "h7", chainHost "h8", chainHost "h9", chainHost "h10",
       chainHost "hc"] }

/-- Candidate record of the two-peer depth witness graph. -/
def qW4 : SPeerRec :=
  { id := "q", state := PeerState.running, parent := none,
    hostId := "hq", hasStream := false, finishedNum := 0 }

/-- Child record of the two-peer depth witness graph. -/
def cW4 : SPeerRec :=
  { id := "c", state := PeerState.running, parent := none,
    hostId := "hc", hasStream := true, finishedNum := 0 }

/-- Two-peer graph: a root candidate and a child about to adopt it. -/
def gW4 : Graph :=
  { task := { id := "t", state := TaskState.running, totalPieceCount := 0,
              backToSourcePeerCount := 0, backToSourceLimit := 1, cdnPeerId := none },
    peers := [qW4, cW4],
    hosts := [chainHost "hq", chainHost "hc"] }

instance scoreGeTotal (ev : Evaluator) (child : SPeerRec) (tc : Int) :
    IsTotal SPeerRec (scoreGe ev child tc) :=
  ⟨fun _ _ => le_total _ _⟩

instance scoreGeTrans (ev : Evaluator) (child : SPeerRec) (tc : Int) :
    IsTrans SPeerRec (scoreGe ev child tc) :=
  ⟨fun _ _ _ hab hbc => le_trans hbc hab⟩

/- ===== Theorems ===== -/

example : sha256HexStr "abc" =
    "ba7816bf8f01cfea414140de5dae2223b00361a396177a9cb410ff61f20015ad" := by decide

/-- C1 counterexample: at url `http://example.com/file` with empty filter, no
metadata and no biz tag, the id computed by the code differs from the claim
format, because the code omits the two pipe separators when the digest, biz
tag and range are all empty while the claim always inserts them. -/
theorem taskID_claim_format_refuted :
    GenerateTaskID "http://example.com/file" "" none "" ≠
      claimTaskID "http://example.com/file" "" none "" := by decide

/-- C1 (amended): the task id is a pure function of its arguments and equals
the sha256 hex digest of the last ten characters of the source prepended to
the source, where the source is the filtered URL followed by a pipe and the
digest (or the biz tag) only when one is non-empty, then a pipe and the
range only when the range is non-empty. -/
theorem taskID_matches_amended_format (url filter : String) (meta : Option UrlMeta) (bizID : String) :
    GenerateTaskID url filter meta bizID = amendedTaskID url filter meta bizID := by
  cases meta with
  | none =>
      by_cases hb : bizID = "" <;>
        simp [GenerateTaskID, amendedTaskID, amendedTaskSource, hb, String.append_assoc]
  | some mm =>
      by_cases h1 : mm.md5 = "" <;> by_cases h2 : bizID = "" <;> by_cases h3 : mm.range = "" <;>
        simp [GenerateTaskID, amendedTaskID, amendedTaskSource, h1, h2, h3, String.append_assoc]

/-- C5 counterexample: the peer FSM permits `DownloadFailed` from `Succeeded`,
moving a peer out of a terminal state, so terminal states are not sinks as
claimed. -/
theorem peer_succeeded_not_sink :
    peerFSMStep PeerState.succeeded PeerEvent.downloadFailed = some PeerState.failed := by
  decide

/-- C5 (amended): `Leave` is a sink; from `Failed` the only permitted event is
`Leave`; from `Succeeded` the only permitted events are `DownloadFailed`
(to `Failed`) and `Leave`. -/
theorem peer_terminal_states_amended : ∀ e : PeerEvent,
    peerFSMStep PeerState.leave e = none ∧
    peerFSMStep PeerState.failed e =
      (if e = PeerEvent.leave then some PeerState.leave else none) ∧
    peerFSMStep PeerState.succeeded e =
      (if e = PeerEvent.leave then some PeerState.leave
       else if e = PeerEvent.downloadFailed then some PeerState.failed else none) := by
  intro e
  cases e <;> decide

/-- C7 counterexample: two piece results of the same task reported by source
peers `p3` and `p4` are routed to different workers when two workers run,
because `ReceiveUpdatePieceResult` hashes the source peer id, not the task
id. -/
theorem per_task_serial_routing_refuted : ¬ perTaskSerialRouting := by
  intro h
  have hc := h 2 (by decide) ⟨"t", "p3"⟩ ⟨"t", "p4"⟩ rfl
  exact absurd hc (by decide)

/-- C7 (amended): every supervisor-era event hashes to the task id it
references; jobs with the same task id are routed to the same worker; but
piece-result updates are routed by the source peer id, and two updates for
the same task can land on different workers. -/
theorem event_routing_amended :
    (∀ e : CoreEvent, e.hashKey = e.taskId) ∧
    (∀ (workerNum : Nat) (t1 t2 : String), t1 = t2 →
        receiveJobWorker workerNum t1 = receiveJobWorker workerNum t2) ∧
    ∃ (workerNum : Nat) (pr1 pr2 : PieceResultMsg), 0 < workerNum ∧
        pr1.taskId = pr2.taskId ∧
        receiveUpdatePieceResultWorker workerNum pr1 ≠
          receiveUpdatePieceResultWorker workerNum pr2 := by
  refine ⟨fun e => by cases e <;> rfl, fun n t1 t2 h => by rw [h],
    ⟨2, ⟨"t", "p3"⟩, ⟨"t", "p4"⟩, by decide, rfl, by decide⟩⟩

/-- C7 witness: the job-routing congruence applied at worker count 2 and task
id `t`. -/
theorem event_routing_amended_witness :
    receiveJobWorker 2 "t" = receiveJobWorker 2 "t" :=
  event_routing_amended.2.1 2 "t" "t" rfl

/-- C9: the finished-piece counter is monotone non-decreasing, and
`AddPieceInfo` updates the counter and appends the cost — keeping only the
most recent 20 history entries — exactly when the reported count is
strictly greater than the stored one, leaving the peer unchanged otherwise. -/
theorem addPieceInfo_spec (p : TypesPeer) (fc cost : Int) :
    p.finishedNum ≤ (addPieceInfo p fc cost).finishedNum ∧
    addPieceInfo p fc cost =
      (if fc > p.finishedNum then
        { p with finishedNum := fc,
                 costHistory :=
                   (p.costHistory ++ [cost]).drop (p.costHistory.length + 1 - 20) }
       else p) := by
  unfold addPieceInfo
  by_cases h : fc > p.finishedNum
  · refine ⟨by simp [h]; omega, ?_⟩
    simp only [h, if_true]
    by_cases h2 : (p.costHistory ++ [cost]).length > 20
    · simp [h2]
      intro hle
      exfalso
      simp [List.length_append] at h2
      omega
    · simp only [h2, if_false]
      have hlen : p.costHistory.length + 1 ≤ 20 := by
        simpa [List.length_append] using Nat.not_lt.mp h2
      have hz : p.costHistory.length + 1 - 20 = 0 := by omega
      simp [hz]
  · simp [h]

/-- C10: `Touch` refreshes the last-access time of the peer and its task, and
restores a zombie peer to `Running` exactly when its leave flag is unset,
leaving the status (and every other field) unchanged otherwise. -/
theorem touch_spec (now : Nat) (p : TypesPeer) (t : TypesTask) :
    (touchPeer now p t).1.lastAccessTime = now ∧
    (touchPeer now p t).2.lastAccessTime = now ∧
    (touchPeer now p t).1.status =
      (if p.status = TPeerStatus.zombie ∧ p.leave = false then TPeerStatus.running
       else p.status) ∧
    (touchPeer now p t).1.finishedNum = p.finishedNum ∧
    (touchPeer now p t).1.costHistory = p.costHistory ∧
    (touchPeer now p t).1.leave = p.leave := by
  unfold touchPeer
  by_cases h : p.status = TPeerStatus.zombie ∧ p.leave = false <;> simp [h]

/-- C8 counterexample: a running, connected peer on a CDN host, idle beyond the
peer TTL (1000 − 0 > 500), is removed by the GC sweep, so a seed peer is
garbage-collected as a function of the idle-time clock. -/
theorem seed_peer_ttl_gc_refuted :
    cleanupPeers { peerTTI := 100, peerTTL := 500 } 1000 [seedPeerCex] = [] := by decide

/-- C8 (amended): the TTI branch never touches a peer on a seed host — its
status and leave flag are preserved — but the sweep still removes such a
peer exactly when it has already left, has failed, or has been idle beyond
the peer TTL. -/
theorem seed_peer_gc_amended (cfg : GCConfig) (now : Nat) (p : GCPeer)
    (h : p.hostCDN = true) :
    gcMark cfg now p = p ∧
    cleanupPeers cfg now [p] =
      (if p.leave = true ∨ p.status = TPeerStatus.fail ∨
          now - p.lastAccessTime > cfg.peerTTL
       then [] else [p]) := by
  have hm : gcMark cfg now p = p := by
    unfold gcMark
    simp [h]
  refine ⟨hm, ?_⟩
  unfold cleanupPeers
  simp only [List.map_cons, List.map_nil, hm]
  by_cases hd : p.leave = true ∨ p.status = TPeerStatus.fail ∨
      now - p.lastAccessTime > cfg.peerTTL
  · have ht : gcShouldDelete cfg now p = true := by
      simp only [gcShouldDelete, Bool.decide_or, Bool.or_eq_true, decide_eq_true_eq]
      rcases hd with h1 | h2 | h3
      · exact Or.inl h1
      · exact Or.inr (Or.inl h2)
      · exact Or.inr (Or.inr h3)
    rw [if_pos hd]
    simp [List.filter, ht]
  · have ht : gcShouldDelete cfg now p = false := by
      simp only [gcShouldDelete, Bool.decide_or, Bool.or_eq_false_iff, decide_eq_false_iff_not]
      push_neg at hd
      exact ⟨by simpa using hd.1, hd.2.1, by simpa using hd.2.2⟩
    rw [if_neg hd]
    simp [List.filter, ht]

/-- C8 witness: the amended theorem applied to the CDN peer fixture at a sweep
time inside both clocks — the peer record survives unchanged. -/
theorem seed_peer_gc_amended_witness :
    cleanupPeers { peerTTI := 100, peerTTL := 500 } 50 [seedPeerCex] = [seedPeerCex] := by
  have h := seed_peer_gc_amended { peerTTI := 100, peerTTL := 500 } 50 seedPeerCex (by decide)
  rw [h.2]
  decide

/-- C6: applying the supervisor-era piece-success handler with a source peer id
that is not registered (and a reporting peer that is not back-source) hits
the branch that reads the nil lookup result, a nil-pointer dereference
instead of the tolerant no-op the spec requires. -/
theorem piece_success_absent_source_panics :
    applyPieceDownloadSuccess 5 c6State "p" "q" 1 3 =
      Except.error GoPanicKind.nilPointerDereference := by rfl

/-- Characterization of the rejection loop: it appends, to the accumulator, the
first eligible candidates up to the remaining capacity of the bound. -/
theorem filterParentsLoop_eq (ev : Evaluator) (g : Graph) (child : SPeerRec)
    (bl : List String) (limit : Nat) :
    ∀ (l : List SPeerRec) (acc : List SPeerRec),
      filterParentsLoop ev g child bl limit l acc =
        acc ++ (l.filter (eligibleParent ev g child bl)).take (limit - acc.length) := by
  intro l
  induction l with
  | nil => intro acc; simp [filterParentsLoop]
  | cons cand rest ih =>
    intro acc
    by_cases h0 : acc.length ≥ limit
    · have hz : limit - acc.length = 0 := by omega
      simp [filterParentsLoop, h0, hz]
    · by_cases h1 : bl.contains cand.id
      · have he : eligibleParent ev g child bl cand = false := by
          simp only [eligibleParent, h1, Bool.not_true, Bool.false_and]
        simp only [filterParentsLoop, if_neg h0, if_pos h1, List.filter_cons, he,
          Bool.false_eq_true, if_false, ih]
      · by_cases h2 : cand.id == child.id
        · have he : eligibleParent ev g child bl cand = false := by
            simp only [eligibleParent, h2, Bool.not_true, Bool.false_and, Bool.and_false]
          simp only [filterParentsLoop, if_neg h0, if_neg h1, if_pos h2, List.filter_cons, he,
            Bool.false_eq_true, if_false, ih]
        · by_cases h3 : isBadNode ev cand
          · have he : eligibleParent ev g child bl cand = false := by
              simp only [eligibleParent, h3, Bool.not_true, Bool.false_and, Bool.and_false]
            simp only [filterParentsLoop, if_neg h0, if_neg h1, if_neg h2, if_pos h3,
              List.filter_cons, he, Bool.false_eq_true, if_false, ih]
          · by_cases h4 : depthOf g cand > defaultDepthLimit
            · have hd : decide (depthOf g cand > defaultDepthLimit) = true := decide_eq_true h4
              have he : eligibleParent ev g child bl cand = false := by
                simp only [eligibleParent, hd, Bool.not_true, Bool.false_and, Bool.and_false]
              simp only [filterParentsLoop, if_neg h0, if_neg h1, if_neg h2, if_neg h3,
                if_pos h4, List.filter_cons, he, Bool.false_eq_true, if_false, ih]
            · by_cases h5 : isAncestorFrom g cand child.id
              · have he : eligibleParent ev g child bl cand = false := by
                  simp only [eligibleParent, h5, Bool.not_true, Bool.false_and, Bool.and_false]
                simp only [filterParentsLoop, if_neg h0, if_neg h1, if_neg h2, if_neg h3,
                  if_neg h4, if_pos h5, List.filter_cons, he, Bool.false_eq_true, if_false, ih]
              · by_cases h6 : isAncestorFrom g child cand.id
                · have he : eligibleParent ev g child bl cand = false := by
                    simp only [eligibleParent, h6, Bool.not_true, Bool.false_and, Bool.and_false]
                  simp only [filterParentsLoop, if_neg h0, if_neg h1, if_neg h2, if_neg h3,
                    if_neg h4, if_neg h5, if_pos h6, List.filter_cons, he,
                    Bool.false_eq_true, if_false, ih]
                · by_cases h7 : freeUploadLoad g cand.hostId ≤ 0
                  · have hd : decide (freeUploadLoad g cand.hostId > 0) = false :=
                      decide_eq_false (by omega)
                    have he : eligibleParent ev g child bl cand = false := by
                      simp only [eligibleParent, hd, Bool.and_false]
                    simp only [filterParentsLoop, if_neg h0, if_neg h1, if_neg h2, if_neg h3,
                      if_neg h4, if_neg h5, if_neg h6, if_pos h7, List.filter_cons, he,
                      Bool.false_eq_true, if_false, ih]
                  · have h1f : bl.contains cand.id = false := Bool.eq_false_iff.mpr h1
                    have h2f : (cand.id == child.id) = false := Bool.eq_false_iff.mpr h2
                    have h3f : isBadNode ev cand = false := Bool.eq_false_iff.mpr h3
                    have h4f : decide (depthOf g cand > defaultDepthLimit) = false :=
                      decide_eq_false h4
                    have h5f : isAncestorFrom g cand child.id = false := Bool.eq_false_iff.mpr h5
                    have h6f : isAncestorFrom g child cand.id = false := Bool.eq_false_iff.mpr h6
                    have h7t : decide (freeUploadLoad g cand.hostId > 0) = true :=
                      decide_eq_true (by omega)
                    have he : eligibleParent ev g child bl cand = true := by
                      simp only [eligibleParent, h1f, h2f, h3f, h4f, h5f, h6f, h7t,
                        Bool.not_false, Bool.true_and, Bool.and_true]
                    have hsz : limit - acc.length = (limit - (acc.length + 1)) + 1 := by omega
                    simp only [filterParentsLoop, if_neg h0, if_neg h1, if_neg h2, if_neg h3,
                      if_neg h4, if_neg h5, if_neg h6, if_neg h7, List.filter_cons, he,
                      if_true, ih, hsz, List.take_succ_cons, List.length_append,
                      List.length_cons, List.length_nil]
                    simp

/-- C3 (amended): a peer that is not Running is rejected with an empty result;
the candidate enumeration keeps, bounded by the effective filter count
(default 5), exactly the candidates that are not blocklisted, not the child,
not bad nodes, not beyond the depth limit, not descendants or ancestors of
the child, and whose host has a free upload slot; and a successful attempt
returns the candidates sorted by descending evaluator score, with the top
one installed as the new parent of the child. -/
theorem notifyAndFindParent_spec (cfg : SchedConfig) (ev : Evaluator) (g : Graph)
    (p : SPeerRec) (bl : List String) (hp : findPeer g p.id = some p) :
    (p.state ≠ PeerState.running → notifyAndFindParent cfg ev g p.id bl = ⟨g, [], [], false⟩) ∧
    filterParents cfg ev g p bl =
      (g.peers.filter (eligibleParent ev g p bl)).take (effFilterParentCount cfg) ∧
    (∀ best rest,
        List.insertionSort (scoreGe ev p g.task.totalPieceCount)
            (filterParents cfg ev g p bl) = best :: rest →
        p.state = PeerState.running → p.hasStream = true →
        notifyAndFindParent cfg ev g p.id bl =
          ⟨setPeerParent g p.id (some best.id),
           [Packet.mk PacketCode.success (some best.id) (rest.map (fun r => r.id))],
           (best :: rest).map (fun r => r.id), true⟩ ∧
        List.Sorted (scoreGe ev p g.task.totalPieceCount) (best :: rest)) := by
  refine ⟨?_, ?_, ?_⟩
  · intro hns
    unfold notifyAndFindParent
    rw [hp]
    simp [notifyBody, hns]
  · have h := filterParentsLoop_eq ev g p bl (effFilterParentCount cfg) g.peers []
    simpa [filterParents] using h
  · intro best rest hsort hrun hstr
    constructor
    · unfold notifyAndFindParent
      rw [hp]
      unfold notifyBody
      have hne : ¬ (p.state ≠ PeerState.running) := by simp [hrun]
      have hpar : ¬ (filterParents cfg ev g p bl).isEmpty = true := by
        intro hemp
        rw [List.isEmpty_iff] at hemp
        rw [hemp] at hsort
        simp at hsort
      have hsort2 : sortedParents cfg ev g p bl = best :: rest := hsort
      simp only [if_neg hne, hpar, Bool.false_eq_true, if_false, hstr, if_true, hsort2]
    · have hs := List.sorted_insertionSort (scoreGe ev p g.task.totalPieceCount)
        (filterParents cfg ev g p bl)
      rw [hsort] at hs
      exact hs

/-- C3 counterexample: with the default configuration and a graph of six
eligible candidates, the enumeration returns five parents — the in-code
default bound is 5, not the claimed 4. -/
theorem filter_parent_bound_default_refuted :
    (filterParents cfgD evW gSix cSix []).length = 5 := by decide

/-- C3 witness: the amended attempt specification applied to a concrete graph
whose requesting peer is still Pending — the attempt is rejected. -/
theorem notifyAndFindParent_spec_witness :
    notifyAndFindParent cfgD evW gIdle "c" [] = ⟨gIdle, [], [], false⟩ := by
  have h := (notifyAndFindParent_spec cfgD evW gIdle cIdle [] (by decide)).1 (by decide)
  simpa using h

/-- Failed attempts do not mutate the graph: when `NotifyAndFindParent` reports
failure, it returns the input graph with no packets and no candidates. -/
theorem notifyAndFindParent_fail_eq (cfg : SchedConfig) (ev : Evaluator) (g : Graph)
    (pid : String) (bl : List String)
    (h : (notifyAndFindParent cfg ev g pid bl).ok = false) :
    notifyAndFindParent cfg ev g pid bl = ⟨g, [], [], false⟩ := by
  unfold notifyAndFindParent at h ⊢
  rcases hf : findPeer g pid with _ | peer
  · simp only [hf]
  · simp only [hf] at h ⊢
    unfold notifyBody at h ⊢
    by_cases h1 : peer.state ≠ PeerState.running
    · rw [if_pos h1]
    · rw [if_neg h1] at h ⊢
      by_cases h2 : (filterParents cfg ev g peer bl).isEmpty = true
      · rw [if_pos h2]
      · rw [if_neg h2] at h ⊢
        by_cases h3 : peer.hasStream = true
        · rw [if_pos h3] at h ⊢
          rcases hs : sortedParents cfg ev g peer bl with _ | ⟨best, rest⟩ <;>
            simp only [hs] at h ⊢
          simp at h
        · rw [if_neg h3]

/-- Behavior of the retry loop from an arbitrary counter when every attempt
fails: with a streaming, Running peer, the loop ends in the back-to-source
fallback when the task can go back to source and either the seed peer
failed or the back-to-source limit is reachable, and in the
SchedTaskStatusError packet otherwise. -/
theorem scheduleParentAux_spec (cfg : SchedConfig) (ev : Evaluator) (bl : List String)
    (pid : String) (g : Graph) (p : SPeerRec)
    (hp : findPeer g pid = some p) (hstream : p.hasStream = true)
    (hrun : p.state = PeerState.running)
    (hfail : (notifyAndFindParent cfg ev g pid bl).ok = false) :
    ∀ (fuel n : Nat), n ≤ cfg.retryLimit → cfg.retryLimit + 1 - n ≤ fuel →
      scheduleParentAux cfg ev bl pid fuel n g =
        if (cdnPeerFailed g || decide (cfg.retryBackSourceLimit ≤ cfg.retryLimit)) &&
            canBackToSource g.task then
          (backToSourceOutcome g pid, [Packet.mk PacketCode.schedNeedBackSource none []])
        else (g, [Packet.mk PacketCode.schedTaskStatusError none []]) := by
  intro fuel
  induction fuel with
  | zero => intro n hn hfe; omega
  | succ fuel ih =>
    intro n hn hfe
    have hstep : peerFSMStep p.state PeerEvent.downloadFromBackToSource =
        some PeerState.backToSource := by
      rw [hrun]; decide
    by_cases hc1 : ((decide (n ≥ cfg.retryBackSourceLimit) || cdnPeerFailed g) &&
        canBackToSource g.task) = true
    · have hc1p := hc1
      simp only [Bool.and_eq_true, Bool.or_eq_true, decide_eq_true_eq] at hc1p
      have hrhs : ((cdnPeerFailed g || decide (cfg.retryBackSourceLimit ≤ cfg.retryLimit)) &&
          canBackToSource g.task) = true := by
        simp only [Bool.and_eq_true, Bool.or_eq_true, decide_eq_true_eq]
        refine ⟨?_, hc1p.2⟩
        rcases hc1p.1 with hd | hc
        · exact Or.inr (by omega)
        · exact Or.inl hc
      rw [if_pos hrhs]
      unfold scheduleParentAux
      rw [if_pos hc1]
      simp only [hp, hstream, if_true, hstep]
      unfold backToSourceOutcome
      by_cases ht : (setPeerState g pid PeerState.backToSource).task.state = TaskState.failed
      · have hts : taskFSMStep (setPeerState g pid PeerState.backToSource).task.state
            TaskEvent.download = some TaskState.running := by
          rw [ht]; decide
        simp only [if_pos ht, hts]
      · simp only [if_neg ht]
    · have hc1f : ((decide (n ≥ cfg.retryBackSourceLimit) || cdnPeerFailed g) &&
          canBackToSource g.task) = false := Bool.eq_false_iff.mpr hc1
      have hc1p := hc1f
      simp only [Bool.and_eq_false_iff, Bool.or_eq_false_iff, decide_eq_false_iff_not] at hc1p
      by_cases hrl : n ≥ cfg.retryLimit
      · have hrhs : ¬ (((cdnPeerFailed g ||
            decide (cfg.retryBackSourceLimit ≤ cfg.retryLimit)) &&
            canBackToSource g.task) = true) := by
          simp only [Bool.and_eq_true, Bool.or_eq_true, decide_eq_true_eq]
          rintro ⟨hor, hcb⟩
          rcases hc1p with ⟨hnn, hcdn⟩ | hcbf
          · rcases hor with hc | hd
            · rw [hcdn] at hc; exact Bool.false_ne_true hc
            · omega
          · rw [hcbf] at hcb; exact Bool.false_ne_true hcb
        rw [if_neg hrhs]
        unfold scheduleParentAux
        rw [hc1f]
        simp only [Bool.false_eq_true, if_false, if_pos hrl, hp, hstream, if_true]
      · unfold scheduleParentAux
        rw [hc1f]
        simp only [Bool.false_eq_true, if_false, if_neg hrl]
        rw [notifyAndFindParent_fail_eq cfg ev g pid bl hfail]
        exact ih (n + 1) (by omega) (by omega)

/-- C2: for a peer with an attached stream (in Running state, with every
single attempt failing), the retry loop of `ScheduleParent` sends a
SchedNeedBackSource packet, fires DownloadFromBackToSource, deletes the
parent edge and resets a Failed task to Running whenever the task can still
go back to source and either the seed peer failed or the back-to-source
limit is within the retry limit; otherwise, once the counter reaches the
retry limit it sends a SchedTaskStatusError packet and stops. -/
theorem scheduleParent_retry_policy (cfg : SchedConfig) (ev : Evaluator) (g : Graph)
    (pid : String) (bl : List String) (p : SPeerRec)
    (hp : findPeer g pid = some p) (hstream : p.hasStream = true)
    (hrun : p.state = PeerState.running)
    (hfail : (notifyAndFindParent cfg ev g pid bl).ok = false) :
    scheduleParent cfg ev g pid bl =
      if (cdnPeerFailed g || decide (cfg.retryBackSourceLimit ≤ cfg.retryLimit)) &&
          canBackToSource g.task then
        (backToSourceOutcome g pid, [Packet.mk PacketCode.schedNeedBackSource none []])
      else (g, [Packet.mk PacketCode.schedTaskStatusError none []]) := by
  unfold scheduleParent
  exact scheduleParentAux_spec cfg ev bl pid g p hp hstream hrun hfail
    (cfg.retryLimit + 1) 0 (by omega) (by omega)

/-- C2 witness: retry exhaustion with back-to-source disabled — a graph with
one streaming Running peer and no candidates ends with the
SchedTaskStatusError packet and an unchanged graph. -/
theorem scheduleParent_retry_policy_witness :
    scheduleParent cfgC2 evW gC2 "p" [] =
      (gC2, [Packet.mk PacketCode.schedTaskStatusError none []]) := by
  have h := scheduleParent_retry_policy cfgC2 evW gC2 "p" []
      { id := "p", state := PeerState.running, parent := none, hostId := "h",
        hasStream := true, finishedNum := 0 }
      (by decide) (by decide) (by decide) (by decide)
  rw [h]
  decide

/-- Identifier preservation of the pointwise parent update. -/
theorem parentUpdate_id (x : String) (par : Option String) (a : SPeerRec) :
    (if a.id == x then { a with parent := par } else a).id = a.id := by
  by_cases hax : (a.id == x) = true
  · rw [if_pos hax]
  · rw [if_neg hax]

/-- Finding by id commutes with the pointwise parent update. -/
theorem find?_parentUpdate (x : String) (par : Option String) (y : String) :
    ∀ l : List SPeerRec,
      (l.map (fun p => if p.id == x then { p with parent := par } else p)).find?
          (fun p => p.id == y) =
        (l.find? (fun p => p.id == y)).map
          (fun r => if r.id == x then { r with parent := par } else r) := by
  intro l
  rw [List.find?_map]
  have hcomp :
      ((fun p : SPeerRec => p.id == y) ∘
        (fun p => if p.id == x then { p with parent := par } else p)) =
        (fun p : SPeerRec => p.id == y) := by
    funext p
    show ((if p.id == x then { p with parent := par } else p).id == y) = (p.id == y)
    rw [parentUpdate_id]
  rw [hcomp]

/-- Replacing a parent edge maps each peer record pointwise, so a lookup in the
updated graph is the mapped lookup. -/
theorem findPeer_setPeerParent (g : Graph) (x : String) (par : Option String) (y : String) :
    findPeer (setPeerParent g x par) y =
      (findPeer g y).map (fun r => if r.id == x then { r with parent := par } else r) := by
  unfold findPeer setPeerParent
  exact find?_parentUpdate x par y g.peers

/-- Lookups of other ids are untouched by a parent replacement. -/
theorem findPeer_setPeerParent_ne (g : Graph) (x : String) (par : Option String) (y : String)
    (hxy : y ≠ x) : findPeer (setPeerParent g x par) y = findPeer g y := by
  rw [findPeer_setPeerParent]
  rcases hf : findPeer g y with _ | r
  · rfl
  · have hr : r.id = y := by
      have := List.find?_some hf
      exact of_decide_eq_true (by simpa using this)
    have hrx : (r.id == x) = false := by
      rw [hr]
      exact beq_eq_false_iff_ne.mpr hxy
    simp [Option.map, hrx]

/-- Lookup of the replaced peer yields its record with the new parent edge. -/
theorem findPeer_setPeerParent_self (g : Graph) (x : String) (par : Option String)
    (p : SPeerRec) (h : findPeer g x = some p) :
    findPeer (setPeerParent g x par) x = some { p with parent := par } := by
  rw [findPeer_setPeerParent, h]
  have hp : p.id = x := by
    have := List.find?_some h
    exact of_decide_eq_true (by simpa using this)
  simp [Option.map, hp]

/-- The depth walker is monotone in its fuel. -/
theorem depthAux_mono (g : Graph) :
    ∀ (f1 f2 : Nat) (p : SPeerRec), f1 ≤ f2 → depthAux g f1 p ≤ depthAux g f2 p := by
  intro f1
  induction f1 with
  | zero => intro f2 p h; simp [depthAux]
  | succ f1 ih =>
    intro f2 p h
    obtain ⟨f2', rfl⟩ : ∃ f2', f2 = f2' + 1 := ⟨f2 - 1, by omega⟩
    unfold depthAux
    cases hpar : p.parent with
    | none => simp
    | some pid =>
      by_cases hc : peerHostCDN g p
      · simp [hc]
      · simp only [hc, Bool.false_eq_true, if_false]
        rcases hf : findPeer g pid with _ | par
        · simp
        · exact Nat.add_le_add_left (ih f2' par (by omega)) 1

/-- When the upward walk from a node never visits the replaced peer, the depth
walker computes the same value in the updated graph. -/
theorem depthAux_setPeerParent (g : Graph) (x : String) (par : Option String) :
    ∀ (fuel : Nat) (node : SPeerRec), visitsUpAux g fuel node x = false →
      depthAux (setPeerParent g x par) fuel node = depthAux g fuel node := by
  intro fuel
  induction fuel with
  | zero => intro node _; rfl
  | succ fuel ih =>
    intro node h
    unfold visitsUpAux at h
    rw [Bool.or_eq_false_iff] at h
    have h2 := h.2
    unfold depthAux
    cases hpar : node.parent with
    | none => rfl
    | some pid =>
      rw [hpar] at h2
      have hcdneq : peerHostCDN (setPeerParent g x par) node = peerHostCDN g node := rfl
      by_cases hc : peerHostCDN g node
      · simp [hcdneq, hc]
      · simp only [hcdneq, hc, Bool.false_eq_true, if_false] at h2 ⊢
        rcases hf : findPeer g pid with _ | parRec
        · rw [findPeer_setPeerParent, hf]
          rfl
        · rw [hf] at h2
          by_cases hpx : (parRec.id == x) = true
          · cases fuel with
            | zero =>
              rw [findPeer_setPeerParent, hf]
              simp [Option.map, depthAux]
            | succ fuel2 =>
              exfalso
              unfold visitsUpAux at h2
              rw [Bool.or_eq_false_iff, hpx] at h2
              exact absurd h2.1 (by decide)
          · have hpf : (parRec.id == x) = false := Bool.eq_false_iff.mpr hpx
            rw [findPeer_setPeerParent, hf]
            simp only [Option.map, hpf, Bool.false_eq_true, if_false]
            exact congrArg (1 + ·) (ih parRec h2)

/-- C4 (amended): the scheduler rejects a would-be parent whose depth exceeds
the limit, so an accepted candidate has depth at most 10, and — when the
adoption does not close a cycle through the child — the replacement leaves
the child at depth at most the limit plus one. -/
theorem depth_after_replacement_bounded (cfg : SchedConfig) (ev : Evaluator) (g : Graph)
    (child cand : SPeerRec) (bl : List String)
    (hchild : findPeer g child.id = some child)
    (hcand : findPeer g cand.id = some cand)
    (hmem : cand ∈ filterParents cfg ev g child bl)
    (hnc : visitsUp g cand child.id = false) :
    depthOf g cand ≤ defaultDepthLimit ∧
    depth (setPeerParent g child.id (some cand.id)) child.id ≤ defaultDepthLimit + 1 := by
  have hchar := filterParentsLoop_eq ev g child bl (effFilterParentCount cfg) g.peers []
  unfold filterParents at hmem
  rw [hchar] at hmem
  simp only [List.nil_append] at hmem
  have hmem2 : cand ∈ g.peers.filter (eligibleParent ev g child bl) :=
    List.mem_of_mem_take hmem
  have helig : eligibleParent ev g child bl cand = true := (List.mem_filter.mp hmem2).2
  unfold eligibleParent at helig
  simp only [Bool.and_eq_true, Bool.not_eq_true', decide_eq_true_eq,
    decide_eq_false_iff_not] at helig
  have hne : cand.id ≠ child.id := by
    have := helig.1.1.1.1.1.2
    intro hcontra
    rw [hcontra] at this
    simp at this
  have hdep : depthOf g cand ≤ defaultDepthLimit := by
    have := helig.1.1.1.2
    omega
  refine ⟨hdep, ?_⟩
  have hfc : findPeer (setPeerParent g child.id (some cand.id)) child.id =
      some { child with parent := some cand.id } :=
    findPeer_setPeerParent_self g child.id (some cand.id) child hchild
  unfold depth
  rw [hfc]
  unfold depthOf
  have hlen : (setPeerParent g child.id (some cand.id)).peers.length = g.peers.length := by
    simp [setPeerParent]
  rw [hlen]
  unfold depthAux
  by_cases hcdn : peerHostCDN (setPeerParent g child.id (some cand.id))
      { child with parent := some cand.id }
  · simp [hcdn]
  · simp only [hcdn, Bool.false_eq_true, if_false]
    have hfc2 : findPeer (setPeerParent g child.id (some cand.id)) cand.id =
        findPeer g cand.id :=
      findPeer_setPeerParent_ne g child.id (some cand.id) cand.id hne
    rw [hfc2, hcand]
    show 1 + depthAux (setPeerParent g child.id (some cand.id)) g.peers.length cand ≤
      defaultDepthLimit + 1
    have hmono : depthAux (setPeerParent g child.id (some cand.id)) g.peers.length cand ≤
        depthAux (setPeerParent g child.id (some cand.id)) (g.peers.length + 1) cand :=
      depthAux_mono _ _ _ _ (by omega)
    have hstable : depthAux (setPeerParent g child.id (some cand.id))
        (g.peers.length + 1) cand = depthAux g (g.peers.length + 1) cand :=
      depthAux_setPeerParent g child.id (some cand.id) (g.peers.length + 1) cand hnc
    have : depthAux g (g.peers.length + 1) cand ≤ defaultDepthLimit := hdep
    omega

/-- C4 counterexample: in a ten-deep chain the candidate q10 sits exactly at
the depth limit, yet the attempt accepts it and the child ends at depth 11,
beyond the claimed bound. -/
theorem depth_limit_claim_refuted :
    (notifyAndFindParent cfgD evW gChain "c" []).ok = true ∧
    depth (notifyAndFindParent cfgD evW gChain "c" []).g "c" = defaultDepthLimit + 1 := by
  decide

/-- C4 witness: the amended bound applied to the two-peer graph — the child
adopting the root candidate stays within depth 11. -/
theorem depth_after_replacement_bounded_witness :
    depth (setPeerParent gW4 "c" (some "q")) "c" ≤ defaultDepthLimit + 1 := by
  have h := depth_after_replacement_bounded cfgD evW gW4 cW4 qW4 []
    (by decide) (by decide) (by decide) (by decide)
  simpa using h.2
